import Mathlib

/-!
Verification development for the invoice field-extraction engine in
`src/src-tauri/src/invoice.rs` of the tally repository.

Strings are modelled as `List Char`; Rust `f64` money/confidence values are
modelled as exact rationals (`ℚ`): parsed amounts and numeric literals
(`0.75`, two-decimal money strings below 1,000,000) are kept as exact
decimal values.  The one rounded `f64` operation the control flow depends
on, the GST threshold product `amounts[0].value * 0.2` in
`parse_from_text`, is modelled with explicit IEEE 754 binary64 rounding
(`roundDouble`, `f64mul`): both operands are rounded to the nearest double
and the exact product is rounded again, exactly as the hardware computes
it, so the threshold comparison reproduces the `f64` comparison bit for
bit.
Machine integers (`u32`) are modelled as `Nat` with explicit `% 2^32`
wrapping where overflow can occur (release-profile semantics); a separate
definition models the overflow-checked (debug-profile) semantics where a
subtraction underflow is a panic.
-/

set_option maxRecDepth 8000

/-- Code points with the Unicode White_Space property: the set accepted by
Rust `char::is_whitespace` and by the regex class `\s`. -/
def rustIsWs (c : Char) : Bool :=
  let n := c.toNat
  n == 0x09 || n == 0x0A || n == 0x0B || n == 0x0C || n == 0x0D || n == 0x20 ||
  n == 0x85 || n == 0xA0 || n == 0x1680 || (0x2000 ≤ n && n ≤ 0x200A) ||
  n == 0x2028 || n == 0x2029 || n == 0x202F || n == 0x205F || n == 0x3000

/-- Number of bytes of the UTF-8 encoding of a character; `byteLen` models
Rust `str::len`, which counts bytes. -/
def utf8Size (c : Char) : Nat :=
  if c.toNat < 0x80 then 1 else if c.toNat < 0x800 then 2
  else if c.toNat < 0x10000 then 3 else 4

/-- Byte length of a string, as Rust `str::len` computes it. -/
def byteLen (s : List Char) : Nat := (s.map utf8Size).sum

/-- Rust `str::trim`: remove leading and trailing White_Space characters. -/
def rustTrim (s : List Char) : List Char :=
  ((s.dropWhile rustIsWs).reverse.dropWhile rustIsWs).reverse

/-- Lowercasing of a character, modelling Rust `str::to_lowercase` on its
ASCII range (none of the keyword searches in the source distinguishes the
non-ASCII cases). -/
def toLowerChar (c : Char) : Char :=
  if 'A' ≤ c && c ≤ 'Z' then Char.ofNat (c.toNat + 32) else c

/-- Uppercasing of a character, modelling Rust `str::to_uppercase` on its
ASCII range. -/
def toUpperChar (c : Char) : Char :=
  if 'a' ≤ c && c ≤ 'z' then Char.ofNat (c.toNat - 32) else c

def toLowerStr (s : List Char) : List Char := s.map toLowerChar

def toUpperStr (s : List Char) : List Char := s.map toUpperChar

/-- Split a string at every newline character, keeping all segments
(so the result always has one more segment than there are newlines). -/
def splitOnNl : List Char → List (List Char)
  | [] => [[]]
  | '\n' :: rest => [] :: splitOnNl rest
  | c :: rest =>
    match splitOnNl rest with
    | seg :: segs => (c :: seg) :: segs
    | [] => [[c]]

/-- Remove one trailing carriage return, as Rust `str::lines` does for
each produced line. -/
def dropTrailingCR (s : List Char) : List Char :=
  match s.reverse with
  | '\r' :: rest => rest.reverse
  | _ => s

/-- Rust `str::lines`: split at newlines, drop a final empty segment
produced by a trailing newline, strip one trailing `\r` per line; the
empty string yields no lines. -/
def rustLines (s : List Char) : List (List Char) :=
  if s = [] then []
  else
    let segs := splitOnNl s
    let segs := if segs.getLast? = some [] then segs.dropLast else segs
    segs.map dropTrailingCR

/-- Whether the first list is a prefix of the second. -/
def startsWithL : List Char → List Char → Bool
  | [], _ => true
  | _ :: _, [] => false
  | p :: ps, c :: cs => p == c && startsWithL ps cs

/-- Rust `str::contains` for a substring needle. -/
def containsSub : List Char → List Char → Bool
  | [], sub => sub.isEmpty
  | c :: t, sub => startsWithL sub (c :: t) || containsSub t sub

/-- Rust `str::find` for a substring needle: index of the first
occurrence. The source uses the index only to split the string at the
occurrence, for which the character index used here and the byte index
returned by Rust denote the same split point. -/
def findSub : List Char → List Char → Option Nat
  | [], sub => if startsWithL sub [] then some 0 else none
  | c :: t, sub =>
    if startsWithL sub (c :: t) then some 0 else (findSub t sub).map (· + 1)

/-- Numeric value of a string of decimal digit characters. -/
def natOfDigits (s : List Char) : Nat := s.foldl (fun n c => n * 10 + (c.toNat - 48)) 0

/-- Rust `char::to_digit(10)`: the value of an ASCII decimal digit
(code points 48 to 57). -/
def charToDigit? (c : Char) : Option Nat :=
  if 48 ≤ c.toNat ∧ c.toNat ≤ 57 then some (c.toNat - 48) else none

/-! Exact rational arithmetic through `mkRat`.  The standard `ℚ`
operations of the library are marked irreducible, so the definitions
below, provably equal to them (`qadd_eq`, `qmul_eq`, `qdiv_eq`,
`qmin_eq`), are used inside the executable transcriptions so that every
concrete run evaluates inside the kernel. -/

/-- Rational addition through `mkRat`. -/
def qadd (a b : ℚ) : ℚ := mkRat (a.num * b.den + b.num * a.den) (a.den * b.den)

/-- Rational multiplication through `mkRat`. -/
def qmul (a b : ℚ) : ℚ := mkRat (a.num * b.num) (a.den * b.den)

/-- Rational division through `mkRat` (zero divisor yields zero, as the
division of `ℚ` does). -/
def qdiv (a b : ℚ) : ℚ :=
  if 0 ≤ b.num then mkRat (a.num * b.den) (a.den * b.num.toNat)
  else mkRat (-(a.num * b.den)) (a.den * (-b.num).toNat)

/-- Minimum of two rationals, as Rust `f64::min` computes it. -/
def qmin (a b : ℚ) : ℚ := if a < b then a else b

/-! IEEE 754 binary64 rounding, for the one place the source computes a
rounded `f64` product: the GST threshold `amounts[0].value * 0.2`. -/

/-- Floor of the base-2 logarithm, by explicit fuel (the library function
is not kernel-reducible). -/
def log2Fuel : ℕ → ℕ → ℕ
  | 0, _ => 0
  | fuel + 1, n => if 2 ≤ n then log2Fuel fuel (n / 2) + 1 else 0

def natLog2 (n : ℕ) : ℕ := log2Fuel n n

/-- Floor of the base-2 logarithm of the positive fraction a/b. -/
def ratLog2 (a b : ℕ) : ℤ :=
  let k : ℤ := (natLog2 a : ℤ) - (natLog2 b : ℤ)
  if 0 ≤ k then (if 2 ^ k.toNat * b ≤ a then k else k - 1)
  else (if b ≤ a * 2 ^ (-k).toNat then k else k - 1)

/-- Round the fraction n/d to the nearest integer, ties to even. -/
def rneNat (n d : ℕ) : ℕ :=
  let q := n / d
  let r := n % d
  if 2 * r < d then q
  else if d < 2 * r then q + 1
  else if q % 2 = 0 then q else q + 1

/-- Nearest IEEE 754 binary64 value to the positive fraction a/b: the
fraction is scaled into the significand range [2^52, 2^53) and rounded to
the nearest integer, ties to even.  Exact on the normal range, which
covers every positive value this program forms. -/
def roundDoublePos (a b : ℕ) : ℚ :=
  let e := ratLog2 a b
  let t : ℤ := 52 - e
  if 0 ≤ t then mkRat (rneNat (a * 2 ^ t.toNat) b) (2 ^ t.toNat)
  else mkRat (rneNat a (b * 2 ^ (-t).toNat) * 2 ^ (-t).toNat) 1

/-- Nearest binary64 value to a rational: the exact value a Rust `f64`
holds after parsing or computing it. -/
def roundDouble (q : ℚ) : ℚ :=
  if q.num = 0 then mkRat 0 1
  else if 0 < q.num then roundDoublePos q.num.toNat q.den
  else
    let p := roundDoublePos (-q.num).toNat q.den
    mkRat (-p.num) p.den

/-- Rust `f64` multiplication: the exact product of the two doubles,
rounded to the nearest double. -/
def f64mul (x y : ℚ) : ℚ := roundDouble (qmul x y)

/-- The `f64` literal `0.2` of the source: the nearest double to one
fifth, which is slightly above it. -/
def dblFifth : ℚ := roundDouble (mkRat 2 10)

/-- Rust `str::parse::<f64>` on the digit-and-point strings producible by
the amount and quantity patterns of the source (`\d*.\d\d` after comma
removal, `\d+`, `\d+.\d+`), with the exact decimal value. -/
def parseDecimal (s : List Char) : Option ℚ :=
  let ip := s.takeWhile Char.isDigit
  let rest := s.dropWhile Char.isDigit
  match rest with
  | [] => if ip.isEmpty then none else some (mkRat (natOfDigits ip) 1)
  | '.' :: fp =>
    if fp.all Char.isDigit && (!ip.isEmpty || !fp.isEmpty) then
      some (mkRat (natOfDigits ip * 10 ^ fp.length + natOfDigits fp) (10 ^ fp.length))
    else none
  | _ => none

/-- Rust formatting with two decimal places, for the nonnegative
integer-cent amounts arising from the money pattern. -/
def formatMoney (q : ℚ) : List Char :=
  let cents := (qmul q 100).num.toNat
  let fracPart := if cents % 100 < 10
    then '0' :: (Nat.repr (cents % 100)).toList
    else (Nat.repr (cents % 100)).toList
  (Nat.repr (cents / 100)).toList ++ '.' :: fracPart

/-! The pattern matcher.  The source uses the Rust regex crate, whose
leftmost-first match semantics coincide with those of a backtracking
matcher with greedy quantifiers and left-preferring alternation.  Every
quantifier in the patterns of the source applies to a single-character
class, so the syntax below only provides starred character classes, which
keeps the matcher structurally recursive.  `\d` and `\w` (Unicode classes
in the regex crate) are modelled on their ASCII ranges. -/

/-- Regex abstract syntax: character class, empty, concatenation, ordered
alternation, greedy star over a class, greedy option, the (single)
capture group, and word boundary. -/
inductive RE where
  | cls : (Char → Bool) → RE
  | eps : RE
  | cat : RE → RE → RE
  | alt : RE → RE → RE
  | starCls : (Char → Bool) → RE
  | opt : RE → RE
  | group : RE → RE
  | wb : RE

/-- ASCII model of the regex class `\w`. -/
def isWordChar (c : Char) : Bool := c.isAlphanum || c == '_'

/-- Word-boundary test between the previous character and the rest of the
input. -/
def atBoundary (prev : Option Char) (s : List Char) : Bool :=
  (match prev with | some c => isWordChar c | none => false)
  != (match s with | c :: _ => isWordChar c | [] => false)

/-- Result of a successful match attempt: the character preceding the
remaining input, the remaining input, and the group capture. -/
abbrev MRes := Option Char × List Char × Option (List Char)

/-- Matcher continuation: receives the preceding character, the remaining
input and the capture accumulated so far. -/
abbrev MCont := Option Char → List Char → Option (List Char) → Option MRes

/-- Greedy star over a character class: consume as many class characters
as possible, then hand back one at a time on backtracking. -/
def starRun (p : Char → Bool) (k : MCont) : Option Char → List Char → Option (List Char) → Option MRes
  | prev, [], cap => k prev [] cap
  | prev, c :: cs, cap =>
    if p c then
      match starRun p k (some c) cs cap with
      | some r => some r
      | none => k prev (c :: cs) cap
    else k prev (c :: cs) cap

/-- Backtracking matcher in continuation style; greedy quantifiers and
left-preferring alternation reproduce leftmost-first semantics. -/
def mtch : RE → MCont → Option Char → List Char → Option (List Char) → Option MRes
  | .cls p, k, _, s, cap =>
    match s with
    | [] => none
    | c :: cs => if p c then k (some c) cs cap else none
  | .eps, k, prev, s, cap => k prev s cap
  | .cat r1 r2, k, prev, s, cap =>
    mtch r1 (fun prev2 s2 cap2 => mtch r2 k prev2 s2 cap2) prev s cap
  | .alt r1 r2, k, prev, s, cap =>
    match mtch r1 k prev s cap with
    | some r => some r
    | none => mtch r2 k prev s cap
  | .starCls p, k, prev, s, cap => starRun p k prev s cap
  | .opt r, k, prev, s, cap =>
    match mtch r k prev s cap with
    | some r2 => some r2
    | none => k prev s cap
  | .group r, k, prev, s, cap =>
    mtch r (fun prev2 s2 _ => k prev2 s2 (some (s.take (s.length - s2.length)))) prev s cap
  | .wb, k, prev, s, cap => if atBoundary prev s then k prev s cap else none

/-- Find the leftmost match of a pattern, trying successive start
positions; returns the state at the end of the match. -/
def findFrom (r : RE) : Option Char → List Char → Option MRes
  | prev, s =>
    match mtch r (fun p2 s2 c2 => some (p2, s2, c2)) prev s none with
    | some res => some res
    | none =>
      match s with
      | [] => none
      | c :: cs => findFrom r (some c) cs

/-- Successive non-overlapping leftmost matches, resuming after each match
end (advancing one character after an empty match, as the regex crate
does; the patterns of the source never match the empty string).  The fuel
starts at `length + 1` which bounds the number of matches. -/
def allMatchesFuel (r : RE) : Nat → Option Char → List Char → List (Option (List Char))
  | 0, _, _ => []
  | fuel + 1, prev, s =>
    match findFrom r prev s with
    | none => []
    | some (prev2, rest, cap) =>
      cap :: (if rest.length < s.length then allMatchesFuel r fuel prev2 rest
              else match rest with
                   | c :: cs => allMatchesFuel r fuel (some c) cs
                   | [] => [])

/-- Group captures of all matches, in match order: Rust
`Regex::captures_iter` composed with `caps.get(1)`. -/
def allMatches (r : RE) (s : List Char) : List (Option (List Char)) :=
  allMatchesFuel r (s.length + 1) none s

/-- Group capture of the first match: Rust `Regex::captures` composed with
`caps.get(1)`. -/
def firstCaptureOf (r : RE) (s : List Char) : Option (List Char) :=
  match findFrom r none s with
  | some (_, _, some cap) => some cap
  | _ => none

/-- Group captures of all matches, skipping matches without a capture
(`filter_map` over `caps.get(1)`; with the patterns of the source the
group always participates in a match). -/
def allCaptures (r : RE) (s : List Char) : List (List Char) :=
  (allMatches r s).reduceOption

/-! Builders for the concrete patterns of the source.  The patterns carry
the `(?i)` flag except where noted, so literals are matched
case-insensitively throughout (the affected characters are all ASCII). -/

def chrP (c : Char) : RE := .cls (fun x => x == c)

def chrCI (c : Char) : RE := .cls (fun x => toLowerChar x == toLowerChar c)

def catL (l : List RE) : RE := l.foldr .cat .eps

def litCI (s : String) : RE := catL (s.toList.map chrCI)

def altL (l : List RE) : RE := l.foldr .alt (.cls (fun _ => false))

def plusC (p : Char → Bool) : RE := .cat (.cls p) (.starCls p)

def repN (n : Nat) (r : RE) : RE := catL (List.replicate n r)

def digitC : RE := .cls Char.isDigit

def digitPlus : RE := plusC Char.isDigit

def wsStar : RE := .starCls rustIsWs

def wsPlus : RE := plusC rustIsWs

def colonOrWs (c : Char) : Bool := c == ':' || rustIsWs c

def colonHashWs (c : Char) : Bool := c == ':' || c == '#' || rustIsWs c

def moneyChar (c : Char) : Bool := c.isDigit || c == ','

def currencySym (c : Char) : Bool := c == '$' || c == '€' || c == '£'

def wordDash (c : Char) : Bool := isWordChar c || c == '-'

/-- One or two digits. -/
def d12 : RE := .cat digitC (.opt digitC)

def dateSep : RE := .cls (fun c => c == '/' || c == '-')

/-- Two to four digits, longest first. -/
def d24 : RE := catL [digitC, digitC, .opt (.cat digitC (.opt digitC))]

/-- Label alternation of the ABN patterns. -/
def abnLabel : RE :=
  altL [litCI ("abn"),
        catL [chrCI 'a', chrP '.', chrCI 'b', chrP '.', chrCI 'n', .opt (chrP '.')],
        litCI ("australian business number")]

def abnRE1 : RE :=
  catL [abnLabel, .starCls colonOrWs,
        .group (catL [repN 2 digitC, wsStar, repN 3 digitC, wsStar, repN 3 digitC, wsStar,
                      repN 3 digitC])]

def abnRE2 : RE := catL [abnLabel, .starCls colonOrWs, .group (repN 11 digitC)]

def abnRE3 : RE :=
  catL [.wb, .group (catL [repN 2 digitC, .cls rustIsWs, repN 3 digitC, .cls rustIsWs,
        repN 3 digitC, .cls rustIsWs, repN 3 digitC]), .wb]

def abnRE4 : RE := catL [.wb, .group (repN 11 digitC), .wb]

def abnREs : List RE := [abnRE1, abnRE2, abnRE3, abnRE4]

def invLabel1 : RE :=
  altL [catL [litCI ("invoice"), wsStar,
              .opt (altL [chrP '#', .cat (litCI ("no")) (.opt (chrP '.')), litCI ("number")])],
        .cat (litCI ("inv")) (.opt (chrP '.')),
        catL [litCI ("tax"), wsStar, litCI ("invoice")]]

def invRE1 : RE :=
  catL [invLabel1, .starCls colonHashWs, .group (.cat (.cls isWordChar) (.starCls wordDash))]

def invRE2 : RE :=
  catL [altL [litCI ("inv"), litCI ("invoice")], wsStar, .opt (chrP '#'), wsStar,
        .starCls colonOrWs, .group (.cat (.cls isWordChar) (.starCls wordDash))]

def invRE3 : RE :=
  catL [altL [litCI ("reference"), litCI ("ref")], .starCls colonHashWs,
        .group (.cat (litCI ("inv")) (.starCls wordDash))]

def invoiceNumberREs : List RE := [invRE1, invRE2, invRE3]

def dateLabel : RE := altL [catL [litCI ("invoice"), wsStar, litCI ("date")], litCI ("date")]

def monthName : RE :=
  altL [litCI ("January"), litCI ("February"), litCI ("March"), litCI ("April"),
        litCI ("May"), litCI ("June"), litCI ("July"), litCI ("August"),
        litCI ("September"), litCI ("October"), litCI ("November"), litCI ("December"),
        litCI ("Jan"), litCI ("Feb"), litCI ("Mar"), litCI ("Apr"), litCI ("May"),
        litCI ("Jun"), litCI ("Jul"), litCI ("Aug"), litCI ("Sep"), litCI ("Oct"),
        litCI ("Nov"), litCI ("Dec")]

def dateRE1 : RE :=
  catL [dateLabel, .starCls colonOrWs, .group (catL [d12, dateSep, d12, dateSep, d24])]

def dateRE2 : RE :=
  catL [dateLabel, .starCls colonOrWs,
        .group (catL [repN 4 digitC, chrP '-', repN 2 digitC, chrP '-', repN 2 digitC])]

def dateRE3 : RE :=
  catL [litCI ("date"), .starCls colonOrWs,
        .group (catL [d12, wsPlus, monthName, .starCls Char.isAlpha, wsPlus, repN 4 digitC])]

def dateRE4 : RE := catL [.wb, .group (catL [d12, dateSep, d12, dateSep, repN 4 digitC]), .wb]

def dateRE5 : RE :=
  catL [.wb, .group (catL [repN 4 digitC, chrP '-', repN 2 digitC, chrP '-', repN 2 digitC]), .wb]

def dateREs : List RE := [dateRE1, dateRE2, dateRE3, dateRE4, dateRE5]

/-- Capture group shared by all amount patterns. -/
def moneyCapture : RE := .group (catL [plusC moneyChar, chrP '.', repN 2 digitC])

/-- Suffix shared by the labeled amount patterns. -/
def amountTail : RE := catL [.starCls colonOrWs, .opt (.cls currencySym), wsStar, moneyCapture]

def amountRE1 : RE :=
  .cat (altL [catL [litCI ("total"), wsStar, litCI ("amount")],
              catL [litCI ("total"), wsStar, litCI ("due")],
              catL [litCI ("amount"), wsStar, litCI ("due")],
              catL [litCI ("total"), wsStar, chrP '(', litCI ("inc"), .opt (chrP '.'), wsStar,
                    litCI ("gst"), chrP ')'],
              catL [litCI ("total"), wsStar, chrP '(', litCI ("gst"), wsStar, litCI ("inc"),
                    .opt (chrP '.'), chrP ')'],
              catL [litCI ("grand"), wsStar, litCI ("total")]])
       amountTail

def amountRE2 : RE := .cat (litCI ("total")) amountTail

def amountRE3 : RE := .cat (altL [litCI ("gst"), litCI ("tax")]) amountTail

def amountRE4 : RE := .cat (catL [litCI ("balance"), wsStar, litCI ("due")]) amountTail

def amountRE5 : RE := catL [.cls currencySym, wsStar, moneyCapture]

def amountREs : List RE := [amountRE1, amountRE2, amountRE3, amountRE4, amountRE5]

def termsLabel : RE :=
  altL [catL [litCI ("payment"), wsStar, litCI ("term"), .opt (chrCI 's')],
        .cat (litCI ("term")) (.opt (chrCI 's'))]

def daysWord : RE := altL [.cat (litCI ("day")) (.opt (chrCI 's')), litCI ("day")]

/-! The payment-terms extractor of the source reads `caps.get(0)`, the
whole matched span, so each pattern below is wrapped in one outer group
and the inner capture groups of the original patterns are omitted. -/

def payRE1 : RE := .group (catL [termsLabel, .starCls colonOrWs, digitPlus, wsStar, daysWord])

def payRE2 : RE :=
  .group (catL [termsLabel, .starCls colonOrWs,
    altL [catL [litCI ("net"), wsStar, digitPlus], litCI ("cod"),
          catL [litCI ("cash"), wsStar, litCI ("on"), wsStar, litCI ("delivery")],
          litCI ("immediate"), catL [litCI ("upon"), wsStar, litCI ("receipt")]]])

def payRE3 : RE :=
  .group (catL [litCI ("due"), wsStar, .opt (altL [litCI ("in"), litCI ("within")]),
                .starCls colonOrWs, digitPlus, wsStar, daysWord])

def payRE4 : RE := .group (catL [litCI ("net"), wsStar, digitPlus])

def payRE5 : RE :=
  .group (altL [litCI ("eom"), catL [litCI ("end"), wsStar, litCI ("of"), wsStar, litCI ("month")]])

def payRE6 : RE :=
  .group (catL [altL [litCI ("14"), litCI ("30"), litCI ("60"), litCI ("90")], wsStar,
                .cat (litCI ("day")) (.opt (chrCI 's'))])

def paymentTermsREs : List RE := [payRE1, payRE2, payRE3, payRE4, payRE5, payRE6]

/-- Per-line money pattern of the line-item extractor. -/
def moneyRE : RE := moneyCapture

/-- Per-line quantity pattern of the line-item extractor. -/
def qtyRE : RE :=
  catL [.group (.cat digitPlus (.opt (.cat (chrP '.') digitPlus))), wsStar,
        altL [chrCI 'x', chrP '×', chrP '@', litCI ("at")]]

/-! Data model, transcribed from the structures of the source. -/

/-- Extracted field value with confidence and provenance tag. -/
structure ExtractedField (α : Type) where
  value : α
  confidence : ℚ
  source : String
deriving DecidableEq

/-- One extracted line item. -/
structure LineItem where
  description : List Char
  quantity : Option ℚ
  unit_price : Option ℚ
  total : ℚ
  confidence : ℚ
deriving DecidableEq

/-- Document origin tag. -/
inductive DocumentType where
  | Unknown
  | Pdf
  | Image
deriving DecidableEq

/-- Aggregate extraction result. -/
structure ExtractedInvoice where
  abn : Option (ExtractedField (List Char))
  invoice_number : Option (ExtractedField (List Char))
  invoice_date : Option (ExtractedField (List Char))
  due_date : Option (ExtractedField (List Char))
  vendor_name : Option (ExtractedField (List Char))
  total_amount : Option (ExtractedField ℚ)
  gst_amount : Option (ExtractedField ℚ)
  payment_terms : Option (ExtractedField (List Char))
  line_items : List LineItem
  raw_text : List Char
  overall_confidence : ℚ
  document_type : DocumentType
deriving DecidableEq

/-- Weighted checksum accumulation of `validate_abn`, the loop of the
source unrolled (fixed weights [10,1,3,5,7,9,11,13,15,17,19], the first
digit decremented before weighting); every u32 operation wraps modulo
2^32, the release-profile semantics of Rust arithmetic.  Only the initial
subtraction and its product can leave the u32 range: each digit is below
10, so every later added product is at most 171 and, once the running sum
has fallen back below 2^32, it stays there. -/
def abnSum : List Nat → Nat
  | [d0, d1, d2, d3, d4, d5, d6, d7, d8, d9, d10] =>
    let s0 := (d0 + (4294967296 - 1)) % 4294967296
    let s0 := s0 * 10 % 4294967296
    let s1 := (s0 + d1 * 1) % 4294967296
    let s2 := (s1 + d2 * 3) % 4294967296
    let s3 := (s2 + d3 * 5) % 4294967296
    let s4 := (s3 + d4 * 7) % 4294967296
    let s5 := (s4 + d5 * 9) % 4294967296
    let s6 := (s5 + d6 * 11) % 4294967296
    let s7 := (s6 + d7 * 13) % 4294967296
    let s8 := (s7 + d8 * 15) % 4294967296
    let s9 := (s8 + d9 * 17) % 4294967296
    (s9 + d10 * 19) % 4294967296
  | _ => 0

/-- ABN checksum validation, transcribed from `InvoiceParser::validate_abn`
(release-profile wrapping semantics for the u32 arithmetic).  The first
length test is on bytes, as Rust `str::len` is. -/
def validate_abn (abn : List Char) : Bool :=
  if byteLen abn ≠ 11 then false
  else
    let digits := abn.filterMap charToDigit?
    if digits.length ≠ 11 then false
    else abnSum digits % 89 == 0

/-- Overflow-checked (debug- and test-profile) semantics of
`validate_abn`: `none` models the arithmetic-overflow panic of the
subtraction `digits[0] - 1` when the first digit is zero.  No other
operation of the function can overflow: each digit is below 10, so with a
nonzero first digit every intermediate sum is at most 980. -/
def validate_abnChecked (abn : List Char) : Option Bool :=
  if byteLen abn ≠ 11 then some false
  else
    let digits := abn.filterMap charToDigit?
    if digits.length ≠ 11 then some false
    else match digits.head? with
      | some 0 => none
      | _ => some (abnSum digits % 89 == 0)

/-- The weighted sum as the claim words it: the first digit reduced by 1,
each digit multiplied by its weight from [10,1,3,5,7,9,11,13,15,17,19],
all products summed over the integers. -/
def specWeightedSum (s : List Char) : ℤ :=
  match s.map (fun c => ((c.toNat - 48 : Nat) : ℤ)) with
  | d0 :: rest =>
    (d0 - 1) * 10 + ((rest.zip [1, 3, 5, 7, 9, 11, 13, 15, 17, 19]).map (fun p => p.1 * p.2)).sum
  | [] => 0

/-- A string of exactly 11 decimal digits. -/
def isElevenDigits (s : List Char) : Prop :=
  s.length = 11 ∧ ∀ c ∈ s, 48 ≤ c.toNat ∧ c.toNat ≤ 57

instance : DecidablePred isElevenDigits := fun s => by
  unfold isElevenDigits; infer_instance

/-! The extractors. -/

/-- Insert into a list sorted descending by the key, after all entries
with an equal or larger key. -/
def insertByDesc {α : Type} (key : α → ℚ) (x : α) : List α → List α
  | [] => [x]
  | y :: ys => if key x > key y then x :: y :: ys else y :: insertByDesc key x ys

/-- Stable descending sort by a rational key.  On every input this agrees
with the stable `sort_by` of the source with comparator
`b.key.partial_cmp(&a.key).unwrap()`: both produce the unique ordering
that is descending in the key and keeps equal keys in original order. -/
def sortByDesc {α : Type} (key : α → ℚ) (l : List α) : List α :=
  l.foldl (fun acc x => insertByDesc key x acc) []

/-- Cascade loop of `extract_abn`: first match per pattern, spaces removed
from the capture, checksum gate; a failed checksum falls through to the
next pattern. -/
def extract_abn_go : List RE → List Char → Option (ExtractedField (List Char))
  | [], _ => none
  | p :: ps, text =>
    match firstCaptureOf p text with
    | some cap =>
      let abn := cap.filter (fun c => c != ' ')
      if validate_abn abn then some ⟨abn, mkRat 9 10, "abn_regex"⟩ else extract_abn_go ps text
    | none => extract_abn_go ps text

/-- Transcription of `InvoiceParser::extract_abn`. -/
def extract_abn (text : List Char) : Option (ExtractedField (List Char)) :=
  extract_abn_go abnREs text

/-- Cascade loop of `extract_invoice_number`: the capture is trimmed and
upper-cased, then gated on being nonempty and under 50 bytes. -/
def extract_invoice_number_go : List RE → List Char → Option (ExtractedField (List Char))
  | [], _ => none
  | p :: ps, text =>
    match firstCaptureOf p text with
    | some cap =>
      let inv_num := toUpperStr (rustTrim cap)
      if !inv_num.isEmpty && byteLen inv_num < 50 then
        some ⟨inv_num, mkRat 85 100, "invoice_number_regex"⟩
      else extract_invoice_number_go ps text
    | none => extract_invoice_number_go ps text

/-- Transcription of `InvoiceParser::extract_invoice_number`. -/
def extract_invoice_number (text : List Char) : Option (ExtractedField (List Char)) :=
  extract_invoice_number_go invoiceNumberREs text

/-- Per-capture accumulation step of `extract_dates`: trim, deduplicate by
the exact string, keep only strings of at least 6 bytes. -/
def dateStep (acc : List (List Char) × List (ExtractedField (List Char))) (cap : List Char) :
    List (List Char) × List (ExtractedField (List Char)) :=
  let (seen, dates) := acc
  let date := rustTrim cap
  if ¬(seen.contains date) ∧ byteLen date ≥ 6 then
    (date :: seen, dates ++ [⟨date, mkRat 8 10, "date_regex"⟩])
  else acc

/-- Transcription of `InvoiceParser::extract_dates`. -/
def extract_dates (text : List Char) : List (ExtractedField (List Char)) :=
  let caps := (dateREs.map (fun r => allCaptures r text)).flatten
  sortByDesc (fun f => f.confidence) (caps.foldl dateStep ([], [])).2

/-- Per-capture accumulation step of `extract_amounts`: commas removed,
parsed, kept when positive, unseen and below 1,000,000. -/
def amountStep (acc : List (List Char) × List (ExtractedField ℚ)) (cap : List Char) :
    List (List Char) × List (ExtractedField ℚ) :=
  let (seen, amounts) := acc
  let amount_str := cap.filter (fun c => c != ',')
  match parseDecimal amount_str with
  | some amount =>
    if amount > 0 ∧ ¬(seen.contains amount_str) ∧ amount < 1000000 then
      (amount_str :: seen, amounts ++ [⟨amount, mkRat 75 100, "amount_regex"⟩])
    else acc
  | none => acc

/-- Transcription of `InvoiceParser::extract_amounts`. -/
def extract_amounts (text : List Char) : List (ExtractedField ℚ) :=
  let caps := (amountREs.map (fun r => allCaptures r text)).flatten
  sortByDesc (fun f => f.value) (caps.foldl amountStep ([], [])).2

/-- Cascade loop of `extract_payment_terms`: the whole matched span,
trimmed, of the first pattern that matches. -/
def extract_payment_terms_go : List RE → List Char → Option (ExtractedField (List Char))
  | [], _ => none
  | p :: ps, text =>
    match firstCaptureOf p text with
    | some m => some ⟨rustTrim m, mkRat 75 100, "payment_terms_regex"⟩
    | none => extract_payment_terms_go ps text

/-- Transcription of `InvoiceParser::extract_payment_terms`. -/
def extract_payment_terms (text : List Char) : Option (ExtractedField (List Char)) :=
  extract_payment_terms_go paymentTermsREs text

/-- Keyword test of the vendor heuristic, applied to the lowercased line. -/
def vendorKeywordSkip (lower : List Char) : Bool :=
  startsWithL ("abn").toList lower || startsWithL ("invoice").toList lower ||
  startsWithL ("date").toList lower || startsWithL ("tax").toList lower ||
  startsWithL ("bill to").toList lower || startsWithL ("ship to").toList lower

/-- Skip condition of the vendor loop: a non-vendor keyword prefix, or a
line of digits, dashes and slashes only. -/
def vendorSkip (line : List Char) : Bool :=
  vendorKeywordSkip (toLowerStr line) ||
  line.all (fun c => c.isDigit || c == '-' || c == '/')

def businessSuffixes : List (List Char) :=
  [("pty ltd").toList, ("ltd").toList, ("limited").toList, ("inc").toList,
   ("corp").toList, ("llc").toList, ("trading as").toList, ("t/a").toList]

/-- Confidence assigned to an accepted vendor line: 0.90 with a business
suffix token in the lowercased line, else 0.70. -/
def vendorConfidence (line : List Char) : ℚ :=
  if businessSuffixes.any (fun suf => containsSub (toLowerStr line) suf) then mkRat 9 10 else mkRat 7 10

/-- Acceptance test of the vendor loop: strictly more than 3 and strictly
fewer than 100 bytes, and at least one alphabetic character (the Unicode
`char::is_alphabetic` modelled on its ASCII range). -/
def vendorAccept (line : List Char) : Bool :=
  decide (byteLen line > 3) && decide (byteLen line < 100) && line.any Char.isAlpha

/-- Line window of the vendor heuristic: trimmed lines, those that are
nonempty and longer than 2 bytes, the first 10 of them. -/
def vendorWindow (text : List Char) : List (List Char) :=
  (((rustLines text).map rustTrim).filter (fun l => !l.isEmpty && decide (byteLen l > 2))).take 10

/-- Scan loop of `extract_vendor_name`. -/
def extract_vendor_name_go : List (List Char) → Option (ExtractedField (List Char))
  | [] => none
  | line :: rest =>
    if vendorSkip line then extract_vendor_name_go rest
    else if vendorAccept line then some ⟨line, vendorConfidence line, "vendor_heuristic"⟩
    else extract_vendor_name_go rest

/-- Transcription of `InvoiceParser::extract_vendor_name`. -/
def extract_vendor_name (text : List Char) : Option (ExtractedField (List Char)) :=
  extract_vendor_name_go (vendorWindow text)

/-- Rust `char::is_ascii_control`. -/
def isAsciiControl (c : Char) : Bool := c.toNat < 0x20 || c.toNat == 0x7F

/-- Rust `str::replace("  ", " ")`: one left-to-right pass replacing
non-overlapping double-space occurrences by single spaces. -/
def collapseDoubleSpace : List Char → List Char
  | ' ' :: ' ' :: rest => ' ' :: collapseDoubleSpace rest
  | c :: rest => c :: collapseDoubleSpace rest
  | [] => []

/-- All positive parsed amounts of a line, in match order: the per-line
money pattern, commas removed, parsed, zero values dropped. -/
def lineAmounts (line : List Char) : List ℚ :=
  (((allCaptures moneyRE line).filterMap
      (fun cap => parseDecimal (cap.filter (fun c => c != ',')))).filter
    (fun a => decide (a > 0)))

/-- Parsed quantity of a line: capture of the first quantity-marker match. -/
def lineQty (line : List Char) : Option ℚ :=
  (firstCaptureOf qtyRE line).bind parseDecimal

/-- Per-line body of `extract_line_items`: trim; skip short lines and
lines without a positive amount; the last amount is the total; the unit
price is the second-to-last amount, else total over a positive parsed
quantity, 0 for a zero quantity, else the total; the description is the
part before the first occurrence of the first amount reformatted with two
decimals (the whole line when absent), control characters blanked, double
spaces collapsed, trimmed; emitted only when the description is nonempty
and under 200 bytes. -/
def lineToItem? (rawLine : List Char) : Option LineItem :=
  let line := rustTrim rawLine
  if line.isEmpty || decide (byteLen line < 10) then none
  else
    let amounts := lineAmounts line
    if amounts.isEmpty then none
    else
      let quantity := lineQty line
      let total := (amounts.getLast?).getD 0
      let unit_price :=
        if amounts.length ≥ 2 then amounts.getD (amounts.length - 2) 0
        else match quantity with
          | some qty => if qty > 0 then qdiv total qty else 0
          | none => total
      let desc := match findSub line (formatMoney (amounts.headD 0)) with
        | some i => rustTrim (line.take i)
        | none => line
      let desc := rustTrim (collapseDoubleSpace (desc.map (fun c => if isAsciiControl c then ' ' else c)))
      if !desc.isEmpty && decide (byteLen desc < 200) then
        some ⟨desc, quantity, some unit_price, total,
              if quantity.isSome then mkRat 7 10 else mkRat 5 10⟩
      else none

/-- Transcription of `InvoiceParser::extract_line_items`: every line put
through the per-line body, the output truncated to 50 items. -/
def extract_line_items (text : List Char) : List LineItem :=
  ((rustLines text).filterMap lineToItem?).take 50

/-- One optional field folded into the running (sum, count) accumulator of
`calculate_confidence`. -/
def confStep {α : Type} (acc : ℚ × Nat) (f : Option (ExtractedField α)) : ℚ × Nat :=
  match f with
  | some g => (qadd acc.1 g.confidence, acc.2 + 1)
  | none => acc

/-- Transcription of `InvoiceParser::calculate_confidence`: mean of the
confidences of the present fields among abn, invoice number, invoice
date, total amount and vendor name; 0.0 with no field present; plus a
0.1 boost when abn, invoice number and total amount are all present,
capped at 1.0. -/
def calculate_confidence (invoice : ExtractedInvoice) : ℚ :=
  let acc := confStep (0, 0) invoice.abn
  let acc := confStep acc invoice.invoice_number
  let acc := confStep acc invoice.invoice_date
  let acc := confStep acc invoice.total_amount
  let acc := confStep acc invoice.vendor_name
  if acc.2 = 0 then 0
  else
    let avg := qdiv acc.1 (mkRat acc.2 1)
    let boost : ℚ :=
      if invoice.abn.isSome && invoice.invoice_number.isSome && invoice.total_amount.isSome
      then mkRat 1 10 else 0
    qmin (qadd avg boost) 1

/-- Case-insensitive test for the token gst in the text, as the source
computes it via `to_lowercase().contains("gst")`. -/
def containsGST (text : List Char) : Bool := containsSub (toLowerStr text) ("gst").toList

/-- Transcription of `InvoiceParser::parse_from_text`: trim, fail on
empty input, then run every extractor; the largest amount becomes the
total, and the first remaining amount whose double value lies below the
rounded `f64` product of the largest value and 0.2 becomes the GST amount
when the text mentions gst; the overall confidence is computed from the
assembled record. -/
def parse_from_text (text : List Char) (document_type : DocumentType) :
    Except (List Char) ExtractedInvoice :=
  let text := rustTrim text
  if text.isEmpty then .error ("Empty text content").toList
  else
    let dates := extract_dates text
    let amounts := extract_amounts text
    let gst : Option (ExtractedField ℚ) :=
      match amounts with
      | [] => none
      | a0 :: rest =>
        rest.find? (fun a => containsGST text &&
          decide (roundDouble a.value < f64mul (roundDouble a0.value) dblFifth))
    let inv : ExtractedInvoice :=
      { abn := extract_abn text
        invoice_number := extract_invoice_number text
        invoice_date := dates.head?
        due_date := dates.get? 1
        vendor_name := extract_vendor_name text
        total_amount := amounts.head?
        gst_amount := gst
        payment_terms := extract_payment_terms text
        line_items := extract_line_items text
        raw_text := text
        overall_confidence := 0
        document_type := document_type }
    .ok { inv with overall_confidence := calculate_confidence inv }

/-- Validation verdict record. -/
structure InvoiceValidationResult where
  is_valid : Bool
  missing_fields : List String
  warnings : List String
  suggested_action : String
deriving DecidableEq

/-- Transcription of `validate_invoice`. -/
def validate_invoice (invoice : ExtractedInvoice) : InvoiceValidationResult :=
  let missing_fields : List String := []
  let missing_fields :=
    if invoice.abn.isNone then missing_fields ++ ["abn"] else missing_fields
  let missing_fields :=
    if invoice.invoice_number.isNone then missing_fields ++ ["invoice_number"] else missing_fields
  let missing_fields :=
    if invoice.invoice_date.isNone then missing_fields ++ ["invoice_date"] else missing_fields
  let missing_fields :=
    if invoice.total_amount.isNone then missing_fields ++ ["total_amount"] else missing_fields
  let warnings : List String := []
  let warnings :=
    if invoice.vendor_name.isNone then warnings ++ ["Vendor name not detected"] else warnings
  let warnings :=
    if invoice.payment_terms.isNone then warnings ++ ["Payment terms not detected"] else warnings
  let warnings :=
    if invoice.line_items.isEmpty then warnings ++ ["No line items extracted"] else warnings
  let warnings :=
    match invoice.abn with
    | some abn =>
      if !validate_abn abn.value then
        warnings ++ ["ABN " ++ String.mk abn.value ++ " failed checksum validation"]
      else warnings
    | none => warnings
  let is_valid :=
    !missing_fields.contains ("total_amount") && decide (invoice.overall_confidence ≥ mkRat 5 10)
  let suggested_action : String :=
    if missing_fields.isEmpty ∧ invoice.overall_confidence ≥ mkRat 75 100 then "accept"
    else if invoice.overall_confidence ≥ mkRat 5 10 then "review"
    else "manual_entry"
  { is_valid := is_valid
    missing_fields := missing_fields
    warnings := warnings
    suggested_action := suggested_action }

/-! Definitions written from the words of the claims, for comparison with
the transcriptions above. -/

/-- Confidences of the present fields among the five that the aggregator
reads, in field order. -/
def presentConfidences (inv : ExtractedInvoice) : List ℚ :=
  [inv.abn.map (fun f => f.confidence), inv.invoice_number.map (fun f => f.confidence),
   inv.invoice_date.map (fun f => f.confidence), inv.total_amount.map (fun f => f.confidence),
   inv.vendor_name.map (fun f => f.confidence)].reduceOption

/-- Overall confidence as the claim words it: the arithmetic mean of the
present confidences, 0 with none present, plus 0.1 exactly when abn,
invoice number and total amount are all present, capped at 1. -/
def specOverall (inv : ExtractedInvoice) : ℚ :=
  let cs := presentConfidences inv
  if cs = [] then 0
  else
    let boost : ℚ :=
      if inv.abn.isSome ∧ inv.invoice_number.isSome ∧ inv.total_amount.isSome then 0.1 else 0
    min (cs.sum / (cs.length : ℚ) + boost) 1

/-- Record whose only present field is a total amount with confidence
0.75. -/
def onlyTotalRecord : ExtractedInvoice :=
  { abn := none, invoice_number := none, invoice_date := none, due_date := none,
    vendor_name := none, total_amount := some ⟨110, mkRat 75 100, "amount_regex"⟩, gst_amount := none,
    payment_terms := none, line_items := [], raw_text := [], overall_confidence := 0,
    document_type := .Unknown }

/-- The record of the first validation example: only a total amount, with
overall confidence 0.40. -/
def sparseRecord : ExtractedInvoice :=
  { onlyTotalRecord with overall_confidence := mkRat 4 10 }

/-- The record of the second validation example: fully populated, with
overall confidence 0.80. -/
def fullRecord : ExtractedInvoice :=
  { abn := some ⟨("51824753556").toList, mkRat 9 10, "abn_regex"⟩,
    invoice_number := some ⟨("INV-2024-001").toList, mkRat 85 100, "invoice_number_regex"⟩,
    invoice_date := some ⟨("15/01/2024").toList, mkRat 8 10, "date_regex"⟩,
    due_date := none,
    vendor_name := some ⟨("Acme Pty Ltd").toList, mkRat 9 10, "vendor_heuristic"⟩,
    total_amount := some ⟨110, mkRat 75 100, "amount_regex"⟩,
    gst_amount := some ⟨10, mkRat 75 100, "amount_regex"⟩,
    payment_terms := some ⟨("Net 30 days").toList, mkRat 75 100, "payment_terms_regex"⟩,
    line_items := [], raw_text := [], overall_confidence := mkRat 8 10, document_type := .Pdf }

/-! Bridge lemmas: the `mkRat` operations used in the transcriptions are
the standard rational operations. -/

lemma qadd_eq (a b : ℚ) : qadd a b = a + b := by
  unfold qadd
  rw [Rat.mkRat_eq_div]
  push_cast
  conv_rhs => rw [← Rat.num_div_den a, ← Rat.num_div_den b]
  have ha : ((a.den : ℚ)) ≠ 0 := Nat.cast_ne_zero.mpr a.den_nz
  have hb : ((b.den : ℚ)) ≠ 0 := Nat.cast_ne_zero.mpr b.den_nz
  field_simp

lemma qmul_eq (a b : ℚ) : qmul a b = a * b := by
  unfold qmul
  rw [Rat.mkRat_eq_div]
  push_cast
  conv_rhs => rw [← Rat.num_div_den a, ← Rat.num_div_den b]
  have ha : ((a.den : ℚ)) ≠ 0 := Nat.cast_ne_zero.mpr a.den_nz
  have hb : ((b.den : ℚ)) ≠ 0 := Nat.cast_ne_zero.mpr b.den_nz
  field_simp

lemma qdiv_eq (a b : ℚ) : qdiv a b = a / b := by
  by_cases hb : b = 0
  · subst hb
    unfold qdiv
    norm_num [Rat.mkRat_eq_div, Rat.num_ofNat, Rat.den_ofNat]
  · have hnum : b.num ≠ 0 := Rat.num_ne_zero.mpr hb
    have had : ((a.den : ℚ)) ≠ 0 := Nat.cast_ne_zero.mpr a.den_nz
    have hbd : ((b.den : ℚ)) ≠ 0 := Nat.cast_ne_zero.mpr b.den_nz
    have hbq : ((b.num : ℚ)) ≠ 0 := Int.cast_ne_zero.mpr hnum
    rcases le_or_lt 0 b.num with h | h
    · unfold qdiv
      rw [if_pos h, Rat.mkRat_eq_div]
      have hcast : ((b.num.toNat : ℕ) : ℚ) = (b.num : ℚ) := by
        exact_mod_cast congrArg (fun z : ℤ => (z : ℚ)) (Int.toNat_of_nonneg h)
      push_cast
      rw [hcast]
      conv_rhs => rw [← Rat.num_div_den a, ← Rat.num_div_den b]
      field_simp
    · unfold qdiv
      rw [if_neg (not_le.mpr h), Rat.mkRat_eq_div]
      have hcast : (((-b.num).toNat : ℕ) : ℚ) = ((-b.num : ℤ) : ℚ) := by
        exact_mod_cast congrArg (fun z : ℤ => (z : ℚ)) (Int.toNat_of_nonneg (neg_nonneg.mpr h.le))
      push_cast
      push_cast at hcast
      rw [hcast]
      conv_rhs => rw [← Rat.num_div_den a, ← Rat.num_div_den b]
      field_simp

lemma qmin_eq (a b : ℚ) : qmin a b = min a b := by
  unfold qmin
  rcases lt_trichotomy a b with h | h | h
  · rw [if_pos h, min_eq_left h.le]
  · rw [h, if_neg (lt_irrefl b), min_self]
  · rw [if_neg (not_lt.mpr h.le), min_eq_right h.le]

lemma mkRat_one_den (n : ℤ) : mkRat n 1 = (n : ℚ) := by
  rw [Rat.mkRat_eq_div]; simp

lemma mkRat_half : mkRat 5 10 = (0.5 : ℚ) := by rw [Rat.mkRat_eq_div]; norm_num

lemma mkRat_threeQuarters : mkRat 75 100 = (0.75 : ℚ) := by rw [Rat.mkRat_eq_div]; norm_num

lemma mkRat_fifth : mkRat 2 10 = (0.2 : ℚ) := by rw [Rat.mkRat_eq_div]; norm_num

lemma mkRat_tenth : mkRat 1 10 = (0.1 : ℚ) := by rw [Rat.mkRat_eq_div]; norm_num

lemma mkRat_nineTenths : mkRat 9 10 = (0.9 : ℚ) := by rw [Rat.mkRat_eq_div]; norm_num

lemma mkRat_sevenTenths : mkRat 7 10 = (0.7 : ℚ) := by rw [Rat.mkRat_eq_div]; norm_num

lemma mkRat_eightyFive : mkRat 85 100 = (0.85 : ℚ) := by rw [Rat.mkRat_eq_div]; norm_num

lemma mkRat_eightTenths : mkRat 8 10 = (0.8 : ℚ) := by rw [Rat.mkRat_eq_div]; norm_num

lemma mkRat_fourTenths : mkRat 4 10 = (0.4 : ℚ) := by rw [Rat.mkRat_eq_div]; norm_num

/-! Support lemmas for the checksum claims. -/

lemma one_le_utf8Size (c : Char) : 1 ≤ utf8Size c := by
  unfold utf8Size
  repeat' split
  all_goals omega

lemma utf8Size_of_digit (c : Char) (h : c.toNat ≤ 57) : utf8Size c = 1 := by
  unfold utf8Size
  rw [if_pos (by omega)]

lemma byteLen_of_digits (s : List Char) (h : ∀ c ∈ s, 48 ≤ c.toNat ∧ c.toNat ≤ 57) :
    byteLen s = s.length := by
  induction s with
  | nil => rfl
  | cons c t ih =>
    have hc := h c (by simp)
    simp only [byteLen, List.map_cons, List.sum_cons, List.length_cons] at *
    rw [utf8Size_of_digit c hc.2, ih (fun x hx => h x (by simp [hx]))]
    omega

lemma length_le_byteLen (s : List Char) : s.length ≤ byteLen s := by
  induction s with
  | nil => simp [byteLen]
  | cons c t ih =>
    have := one_le_utf8Size c
    simp only [byteLen, List.map_cons, List.sum_cons, List.length_cons] at *
    omega

lemma filterMap_digits_eq (s : List Char) (h : ∀ c ∈ s, 48 ≤ c.toNat ∧ c.toNat ≤ 57) :
    s.filterMap charToDigit? = s.map (fun c => c.toNat - 48) := by
  induction s with
  | nil => rfl
  | cons c t ih =>
    have hc := h c (by simp)
    simp only [List.filterMap_cons, List.map_cons, charToDigit?, if_pos hc]
    rw [ih (fun x hx => h x (by simp [hx]))]

lemma digits_of_filterMap_length (s : List Char)
    (h : (s.filterMap charToDigit?).length = s.length) :
    ∀ c ∈ s, 48 ≤ c.toNat ∧ c.toNat ≤ 57 := by
  induction s with
  | nil => simp
  | cons c t ih =>
    intro x hx
    by_cases hc : 48 ≤ c.toNat ∧ c.toNat ≤ 57
    · rcases List.mem_cons.mp hx with rfl | hxt
      · exact hc
      · apply ih _ x hxt
        simp only [List.filterMap_cons, charToDigit?, if_pos hc, List.length_cons] at h
        omega
    · exfalso
      have hle := List.length_filterMap_le charToDigit? t
      simp only [List.filterMap_cons, charToDigit?, if_neg hc, List.length_cons] at h
      omega

lemma mod_mul_ten_mod (a : ℕ) : a % 4294967296 * 10 % 4294967296 = a * 10 % 4294967296 := by
  omega

lemma abnSum_mod89 (d0 d1 d2 d3 d4 d5 d6 d7 d8 d9 d10 : ℕ)
    (h0 : d0 ≤ 9) (h1 : d1 ≤ 9) (h2 : d2 ≤ 9) (h3 : d3 ≤ 9) (h4 : d4 ≤ 9) (h5 : d5 ≤ 9)
    (h6 : d6 ≤ 9) (h7 : d7 ≤ 9) (h8 : d8 ≤ 9) (h9 : d9 ≤ 9) (h10 : d10 ≤ 9) :
    (abnSum [d0, d1, d2, d3, d4, d5, d6, d7, d8, d9, d10] % 89 = 0) ↔
      ((((d0 : ℤ) - 1) * 10 + ((d1 : ℤ) * 1 + (d2 : ℤ) * 3 + (d3 : ℤ) * 5 + (d4 : ℤ) * 7 +
        (d5 : ℤ) * 9 + (d6 : ℤ) * 11 + (d7 : ℤ) * 13 + (d8 : ℤ) * 15 + (d9 : ℤ) * 17 +
        (d10 : ℤ) * 19)) % 89 = 0) := by
  simp only [abnSum, Nat.mod_add_mod, mod_mul_ten_mod]
  rcases Nat.lt_or_ge (10 * d0 + (d1 * 1 + d2 * 3 + d3 * 5 + d4 * 7 + d5 * 9 + d6 * 11 +
      d7 * 13 + d8 * 15 + d9 * 17 + d10 * 19)) 10 with h | h
  · have e : ((d0 + (4294967296 - 1)) * 10 + d1 * 1 + d2 * 3 + d3 * 5 + d4 * 7 + d5 * 9 +
        d6 * 11 + d7 * 13 + d8 * 15 + d9 * 17 + d10 * 19) % 4294967296
        = 4294967296 - 10 + (10 * d0 + (d1 * 1 + d2 * 3 + d3 * 5 + d4 * 7 + d5 * 9 +
          d6 * 11 + d7 * 13 + d8 * 15 + d9 * 17 + d10 * 19)) := by omega
    omega
  · have e : ((d0 + (4294967296 - 1)) * 10 + d1 * 1 + d2 * 3 + d3 * 5 + d4 * 7 + d5 * 9 +
        d6 * 11 + d7 * 13 + d8 * 15 + d9 * 17 + d10 * 19) % 4294967296
        = 10 * d0 + (d1 * 1 + d2 * 3 + d3 * 5 + d4 * 7 + d5 * 9 +
          d6 * 11 + d7 * 13 + d8 * 15 + d9 * 17 + d10 * 19) - 10 := by omega
    omega

/-- C1: for every string of exactly 11 decimal digits, `validate_abn` is
true exactly when the weighted sum — the first digit reduced by 1, each
digit times its weight from [10,1,3,5,7,9,11,13,15,17,19] — is divisible
by 89; every other string yields false; and the five concrete examples of
the specification evaluate as stated. -/
theorem validate_abn_correct (s : List Char) :
    (isElevenDigits s → (validate_abn s = true ↔ (89 : ℤ) ∣ specWeightedSum s))
    ∧ (¬ isElevenDigits s → validate_abn s = false)
    ∧ validate_abn ("51824753556").toList = true
    ∧ validate_abn ("12345678901").toList = false
    ∧ validate_abn ("1234567890").toList = false
    ∧ validate_abn ("123456789012").toList = false
    ∧ validate_abn ("abcdefghijk").toList = false := by
  refine ⟨?_, ?_, by decide, by decide, by decide, by decide, by decide⟩
  · rintro ⟨hlen, hdig⟩
    have hb : byteLen s = 11 := by rw [byteLen_of_digits s hdig, hlen]
    have hfm : s.filterMap charToDigit? = s.map (fun c => c.toNat - 48) :=
      filterMap_digits_eq s hdig
    have hv : validate_abn s = (abnSum (s.map fun c => c.toNat - 48) % 89 == 0) := by
      simp [validate_abn, hb, hfm, hlen]
    rw [hv]
    rcases s with _ | ⟨c0, s⟩
    · simp at hlen
    rcases s with _ | ⟨c1, s⟩
    · simp at hlen
    rcases s with _ | ⟨c2, s⟩
    · simp at hlen
    rcases s with _ | ⟨c3, s⟩
    · simp at hlen
    rcases s with _ | ⟨c4, s⟩
    · simp at hlen
    rcases s with _ | ⟨c5, s⟩
    · simp at hlen
    rcases s with _ | ⟨c6, s⟩
    · simp at hlen
    rcases s with _ | ⟨c7, s⟩
    · simp at hlen
    rcases s with _ | ⟨c8, s⟩
    · simp at hlen
    rcases s with _ | ⟨c9, s⟩
    · simp at hlen
    rcases s with _ | ⟨c10, s⟩
    · simp at hlen
    rcases s with _ | ⟨c11, s⟩
    swap
    · simp at hlen
    have h0 := hdig c0 (by simp)
    have h1 := hdig c1 (by simp)
    have h2 := hdig c2 (by simp)
    have h3 := hdig c3 (by simp)
    have h4 := hdig c4 (by simp)
    have h5 := hdig c5 (by simp)
    have h6 := hdig c6 (by simp)
    have h7 := hdig c7 (by simp)
    have h8 := hdig c8 (by simp)
    have h9 := hdig c9 (by simp)
    have h10 := hdig c10 (by simp)
    rw [Int.dvd_iff_emod_eq_zero]
    simp only [List.map_cons, List.map_nil, beq_iff_eq, specWeightedSum, List.zip_cons_cons,
      List.zip_nil_right, List.sum_cons, List.sum_nil]
    have hiff := abnSum_mod89 (c0.toNat - 48) (c1.toNat - 48) (c2.toNat - 48) (c3.toNat - 48)
      (c4.toNat - 48) (c5.toNat - 48) (c6.toNat - 48) (c7.toNat - 48) (c8.toNat - 48)
      (c9.toNat - 48) (c10.toNat - 48) (by omega) (by omega) (by omega) (by omega) (by omega)
      (by omega) (by omega) (by omega) (by omega) (by omega) (by omega)
    rw [hiff]
    omega
  · intro hne
    by_cases hb : byteLen s = 11
    · by_cases hl : (s.filterMap charToDigit?).length = 11
      · exfalso
        apply hne
        have hle := List.length_filterMap_le charToDigit? s
        have hbl := length_le_byteLen s
        have hsl : s.length = 11 := by omega
        have hfl : (s.filterMap charToDigit?).length = s.length := by omega
        exact ⟨hsl, digits_of_filterMap_length s hfl⟩
      · simp [validate_abn, hb, hl]
    · simp [validate_abn, hb]

/-- Witness for C1 at the concrete inputs 51824753556 (an 11-digit string
whose weighted sum the theorem shows divisible by 89) and 1234567890 (not
11 digits, so false). -/
theorem validate_abn_correct_witness :
    isElevenDigits (("51824753556").toList)
    ∧ ¬ isElevenDigits (("1234567890").toList)
    ∧ ((89 : ℤ) ∣ specWeightedSum (("51824753556").toList))
    ∧ validate_abn (("1234567890").toList) = false := by
  have h1 : isElevenDigits (("51824753556").toList) := by decide
  have h2 : ¬ isElevenDigits (("1234567890").toList) := by decide
  exact ⟨h1, h2, ((validate_abn_correct (("51824753556").toList)).1 h1).mp (by decide),
    (validate_abn_correct (("1234567890").toList)).2.1 h2⟩

/-- C2: the claim says `validate_abn` never panics on any input, yet the
subtraction `digits[0] - 1` is performed on an unsigned integer, so on an
11-digit input whose first digit is 0 the overflow-checked profiles of
Rust (the defaults for debug builds and for `cargo test`) panic with an
arithmetic-overflow error; `none` in the checked model records that
panic.  In release builds the subtraction wraps and the input simply
yields false, as the second conjunct shows. -/
theorem validate_abn_zero_first_digit_panics :
    validate_abnChecked (("00000000000").toList) = none
    ∧ validate_abn (("00000000000").toList) = false := by
  constructor
  · decide
  · decide

/-- C9: `parse_from_text` returns an error exactly when the trimmed text
is empty, and returns an extracted record on every other input — absence
of individual fields is never an error. -/
theorem parse_from_text_empty_iff (text : List Char) (dt : DocumentType) :
    ((∃ e, parse_from_text text dt = .error e) ↔ rustTrim text = [])
    ∧ ((∃ inv, parse_from_text text dt = .ok inv) ↔ rustTrim text ≠ []) := by
  by_cases h : rustTrim text = []
  · simp [parse_from_text, h]
  · simp [parse_from_text, h, List.isEmpty_iff]

/-- C5: `validate_invoice` always yields a verdict; the record is valid
exactly when the total amount is present and the overall confidence is at
least 0.50; the suggested action is accept when all four required fields
are present and the confidence is at least 0.75, else review at
confidence 0.50, else manual entry; and the two concrete records of the
specification evaluate as stated. -/
theorem validate_invoice_spec (inv : ExtractedInvoice) :
    ((validate_invoice inv).is_valid = true ↔
       (inv.total_amount.isSome = true ∧ inv.overall_confidence ≥ 0.5))
    ∧ ((validate_invoice inv).suggested_action =
        if (inv.abn.isSome = true ∧ inv.invoice_number.isSome = true ∧
            inv.invoice_date.isSome = true ∧ inv.total_amount.isSome = true) ∧
            inv.overall_confidence ≥ 0.75 then "accept"
        else if inv.overall_confidence ≥ 0.5 then "review"
        else "manual_entry")
    ∧ (validate_invoice sparseRecord).is_valid = false
    ∧ (validate_invoice sparseRecord).suggested_action = "manual_entry"
    ∧ (validate_invoice fullRecord).is_valid = true
    ∧ (validate_invoice fullRecord).suggested_action = "accept" := by
  refine ⟨?_, ?_, by decide, by decide, by decide, by decide⟩
  · rcases habn : inv.abn with _ | a <;> rcases hnum : inv.invoice_number with _ | b <;>
      rcases hdate : inv.invoice_date with _ | c <;> rcases htot : inv.total_amount with _ | d <;>
      simp [validate_invoice, habn, hnum, hdate, htot, mkRat_half, mkRat_threeQuarters]
  · rcases habn : inv.abn with _ | a <;> rcases hnum : inv.invoice_number with _ | b <;>
      rcases hdate : inv.invoice_date with _ | c <;> rcases htot : inv.total_amount with _ | d <;>
      simp [validate_invoice, habn, hnum, hdate, htot, mkRat_half, mkRat_threeQuarters]

lemma calc_conf_eq (inv : ExtractedInvoice) : calculate_confidence inv = specOverall inv := by
  rcases habn : inv.abn with _ | a <;> rcases hnum : inv.invoice_number with _ | b <;>
    rcases hdate : inv.invoice_date with _ | c <;> rcases htot : inv.total_amount with _ | d <;>
    rcases hven : inv.vendor_name with _ | e <;>
    simp [calculate_confidence, specOverall, presentConfidences, confStep, habn, hnum, hdate,
      htot, hven, qadd_eq, qdiv_eq, qmin_eq, mkRat_one_den, mkRat_tenth,
      List.reduceOption] <;>
    ring_nf

/-- Record produced by the extractor on the one-character input x, used
to witness the aggregate-confidence claim. -/
def recX : ExtractedInvoice :=
  { abn := none, invoice_number := none, invoice_date := none, due_date := none,
    vendor_name := none, total_amount := none, gst_amount := none, payment_terms := none,
    line_items := [], raw_text := ("x").toList, overall_confidence := 0,
    document_type := .Unknown }

/-- C4: the overall confidence of `calculate_confidence` is the
arithmetic mean of the confidences of the present fields among abn,
invoice number, invoice date, total amount and vendor name — 0 when none
is present — raised by 0.1 and capped at 1 exactly when abn, invoice
number and total amount are all present (`specOverall` spells out those
words); every record returned by `parse_from_text` carries that value;
and a record whose only field is a total amount of confidence 0.75 has
overall confidence exactly 0.75. -/
theorem calculate_confidence_spec (inv : ExtractedInvoice) :
    calculate_confidence inv = specOverall inv
    ∧ (∀ text dt inv2, parse_from_text text dt = Except.ok inv2 →
        inv2.overall_confidence = specOverall inv2)
    ∧ calculate_confidence onlyTotalRecord = 0.75 := by
  refine ⟨calc_conf_eq inv, ?_, ?_⟩
  · intro text dt inv2 h
    simp only [parse_from_text] at h
    by_cases he : (rustTrim text).isEmpty
    · simp [he] at h
    · simp only [he, Bool.false_eq_true, if_false] at h
      rw [Except.ok.injEq] at h
      subst h
      exact calc_conf_eq _
  · rw [← mkRat_threeQuarters]
    decide

/-- Witness for C4: the record extracted from the one-character text x
(no fields present, overall confidence 0). -/
theorem calculate_confidence_spec_witness :
    parse_from_text (("x").toList) DocumentType.Unknown = Except.ok recX
    ∧ recX.overall_confidence = specOverall recX :=
  ⟨by rfl, (calculate_confidence_spec recX).2.1 (("x").toList) DocumentType.Unknown recX (by rfl)⟩

lemma mem_insertByDesc {α : Type} (key : α → ℚ) (x a : α) (l : List α) :
    a ∈ insertByDesc key x l ↔ a = x ∨ a ∈ l := by
  induction l with
  | nil => simp [insertByDesc]
  | cons y ys ih =>
    simp only [insertByDesc]
    split
    · simp only [List.mem_cons]
    · simp only [List.mem_cons, ih]
      tauto

lemma pairwise_insertByDesc {α : Type} (key : α → ℚ) (x : α) (l : List α)
    (h : l.Pairwise (fun a b => key b ≤ key a)) :
    (insertByDesc key x l).Pairwise (fun a b => key b ≤ key a) := by
  induction l with
  | nil => simp [insertByDesc]
  | cons y ys ih =>
    rcases List.pairwise_cons.mp h with ⟨hy, hys⟩
    simp only [insertByDesc]
    split
    · rename_i hxy
      refine List.pairwise_cons.mpr ⟨?_, h⟩
      intro z hz
      rcases List.mem_cons.mp hz with rfl | hz2
      · exact hxy.le
      · exact (hy z hz2).trans hxy.le
    · rename_i hxy
      refine List.pairwise_cons.mpr ⟨?_, ih hys⟩
      intro z hz
      rcases (mem_insertByDesc key x z ys).mp hz with rfl | hz2
      · exact not_lt.mp hxy
      · exact hy z hz2

lemma sortByDesc_go_pairwise {α : Type} (key : α → ℚ) (l acc : List α)
    (hacc : acc.Pairwise (fun a b => key b ≤ key a)) :
    (l.foldl (fun acc x => insertByDesc key x acc) acc).Pairwise (fun a b => key b ≤ key a) := by
  induction l generalizing acc with
  | nil => simpa
  | cons x xs ih => exact ih _ (pairwise_insertByDesc key x acc hacc)

lemma sortByDesc_pairwise {α : Type} (key : α → ℚ) (l : List α) :
    (sortByDesc key l).Pairwise (fun a b => key b ≤ key a) :=
  sortByDesc_go_pairwise key l [] (by simp)

lemma mem_sortByDesc_go {α : Type} (key : α → ℚ) (l : List α) (a : α) :
    ∀ acc, (a ∈ l.foldl (fun acc x => insertByDesc key x acc) acc ↔ a ∈ acc ∨ a ∈ l) := by
  induction l with
  | nil => simp
  | cons x xs ih =>
    intro acc
    simp only [List.foldl_cons, ih, mem_insertByDesc, List.mem_cons]
    tauto

lemma mem_sortByDesc {α : Type} (key : α → ℚ) (l : List α) (a : α) :
    a ∈ sortByDesc key l ↔ a ∈ l := by
  unfold sortByDesc
  rw [mem_sortByDesc_go]
  simp

lemma amounts_fold_bounds (caps : List (List Char)) :
    ∀ (seen : List (List Char)) (acc : List (ExtractedField ℚ)),
      (∀ f ∈ acc, f.confidence = mkRat 75 100 ∧ 0 < f.value ∧ f.value < 1000000) →
      ∀ f ∈ (caps.foldl amountStep (seen, acc)).2,
        f.confidence = mkRat 75 100 ∧ 0 < f.value ∧ f.value < 1000000 := by
  induction caps with
  | nil => intro seen acc hacc f hf; exact hacc f hf
  | cons cap caps ih =>
    intro seen acc hacc f hf
    rw [List.foldl_cons] at hf
    cases hp : parseDecimal (cap.filter (fun c => c != ',')) with
    | none =>
      simp only [amountStep, hp] at hf
      exact ih _ _ hacc f hf
    | some amount =>
      by_cases hc : amount > 0 ∧ ¬((seen.contains (cap.filter (fun c => c != ',')))) ∧
          amount < 1000000
      · simp only [amountStep, hp, if_pos hc] at hf
        refine ih _ _ ?_ f hf
        intro g hg
        rcases List.mem_append.mp hg with hg1 | hg2
        · exact hacc g hg1
        · rw [List.mem_singleton] at hg2
          subst hg2
          exact ⟨rfl, hc.1, hc.2.2⟩
      · simp only [amountStep, hp, if_neg hc] at hf
        exact ih _ _ hacc f hf

/-- C3 counterexample: the claim takes the GST amount to be the first
remaining amount strictly less than 20 percent of the largest; on a text
with amounts 100.20 and 20.04 and the token GST, the program sets the GST
amount to 20.04 even though 20.04 is exactly 20 percent of 100.20, not
strictly below it, because the `f64` product 100.20 * 0.2 rounds up to
20.040000000000003. -/
theorem extract_amounts_gst_equal_cex :
    (∃ inv, parse_from_text (("Total: $100.20\nGST: $20.04").toList) DocumentType.Pdf
        = Except.ok inv
      ∧ inv.total_amount = some ⟨mkRat 501 5, mkRat 75 100, "amount_regex"⟩
      ∧ inv.gst_amount = some ⟨mkRat 501 25, mkRat 75 100, "amount_regex"⟩)
    ∧ (mkRat 501 5 : ℚ) * 0.2 = mkRat 501 25 := by
  refine ⟨⟨_, rfl, by decide, by decide⟩, ?_⟩
  rw [← mkRat_fifth, ← qmul_eq]
  decide

/-- C3 (amended): `extract_amounts` keeps only values that parse, are
positive, below one million and unseen, at confidence 0.75, sorted
descending by value; `parse_from_text` takes the head as the total amount
and, when the text mentions gst, the first remaining amount whose nearest
double lies below the rounded double-precision product of the head value
and 0.2 as the GST amount (by `f64` rounding this can admit a value equal
to exactly 20 percent of the head); on the three-line example the values
come out as [110, 100, 10]. -/
theorem extract_amounts_amended (text : List Char) :
    (extract_amounts text).Pairwise (fun a b => b.value ≤ a.value)
    ∧ (∀ f ∈ extract_amounts text, f.confidence = 0.75 ∧ 0 < f.value ∧ f.value < 1000000)
    ∧ (∀ dt inv, parse_from_text text dt = Except.ok inv →
        inv.total_amount = (extract_amounts (rustTrim text)).head?
        ∧ inv.gst_amount = (match extract_amounts (rustTrim text) with
            | [] => none
            | a0 :: rest =>
              if containsGST (rustTrim text) = true
              then rest.find? (fun a =>
                decide (roundDouble a.value < roundDouble (roundDouble a0.value * roundDouble 0.2)))
              else none))
    ∧ (extract_amounts (("Subtotal: $100.00\nGST: $10.00\nTotal: $110.00").toList)).map
        (fun f => f.value) = [110, 100, 10] := by
  refine ⟨?_, ?_, ?_, by decide⟩
  · simp only [extract_amounts]
    exact sortByDesc_pairwise _ _
  · intro f hf
    simp only [extract_amounts] at hf
    rw [mem_sortByDesc] at hf
    have := amounts_fold_bounds _ [] [] (by simp) f hf
    rw [mkRat_threeQuarters] at this
    exact this
  · intro dt inv h
    simp only [parse_from_text] at h
    by_cases he : (rustTrim text).isEmpty
    · simp [he] at h
    · simp only [he, Bool.false_eq_true, if_false] at h
      rw [Except.ok.injEq] at h
      subst h
      refine ⟨rfl, ?_⟩
      rcases hm : extract_amounts (rustTrim text) with _ | ⟨a0, rest⟩
      · simp [hm]
      · simp only [hm]
        by_cases hg : containsGST (rustTrim text) = true
        · rw [if_pos hg]
          congr 1
          funext a
          simp only [hg, Bool.true_and, f64mul, dblFifth, qmul_eq, mkRat_fifth]
        · rw [if_neg hg]
          rw [Bool.not_eq_true] at hg
          simp only [hg, Bool.false_and]
          rw [List.find?_eq_none]
          intro x hx
          simp

/-- Witness for C3: the largest amount of the three-line example is a
member of the extracted list, satisfies the bounds of the theorem, and
the record extracted from the one-character text x has the head of its
(empty) amount list as total amount. -/
theorem extract_amounts_amended_witness :
    (⟨110, mkRat 75 100, "amount_regex"⟩ : ExtractedField ℚ) ∈
        extract_amounts (("Subtotal: $100.00\nGST: $10.00\nTotal: $110.00").toList)
    ∧ ((⟨110, mkRat 75 100, "amount_regex"⟩ : ExtractedField ℚ).confidence = 0.75
        ∧ 0 < (⟨110, mkRat 75 100, "amount_regex"⟩ : ExtractedField ℚ).value
        ∧ (⟨110, mkRat 75 100, "amount_regex"⟩ : ExtractedField ℚ).value < 1000000)
    ∧ recX.total_amount = (extract_amounts (rustTrim (("x").toList))).head? := by
  have hmem : (⟨110, mkRat 75 100, "amount_regex"⟩ : ExtractedField ℚ) ∈
      extract_amounts (("Subtotal: $100.00\nGST: $10.00\nTotal: $110.00").toList) := by decide
  refine ⟨hmem, (extract_amounts_amended _).2.1 _ hmem, ?_⟩
  exact ((extract_amounts_amended (("x").toList)).2.2.1 DocumentType.Unknown recX (by rfl)).1

lemma extract_abn_go_validated (ps : List RE) (text : List Char) (f : ExtractedField (List Char))
    (h : extract_abn_go ps text = some f) :
    validate_abn f.value = true ∧ f.confidence = mkRat 9 10 := by
  induction ps with
  | nil => simp [extract_abn_go] at h
  | cons p ps ih =>
    simp only [extract_abn_go] at h
    split at h
    · split at h
      · rename_i hv
        rw [Option.some.injEq] at h
        subst h
        exact ⟨hv, rfl⟩
      · exact ih h
    · exact ih h

/-- C6: the identifier field is only ever populated with a value that
passes the checksum, at confidence 0.90 (spaces already stripped), both
for `extract_abn` and through `parse_from_text`; a candidate that fails
the checksum sends the cascade to the next rule, not to a later candidate
of the same rule — the third conjunct evaluates a text whose first
bare-11-digit match fails the checksum while a later valid candidate is
ignored, so the whole cascade yields nothing; the last conjunct is the
labeled spaced example of the specification. -/
theorem extract_abn_validated :
    (∀ text f, extract_abn text = some f → validate_abn f.value = true ∧ f.confidence = 0.9)
    ∧ (∀ text dt inv f, parse_from_text text dt = Except.ok inv → inv.abn = some f →
        validate_abn f.value = true ∧ f.confidence = 0.9)
    ∧ extract_abn (("12345678901 51824753556").toList) = none
    ∧ (extract_abn (("ABN: 51 824 753 556\nInvoice #12345").toList)).map (fun f => f.value)
        = some (("51824753556").toList) := by
  have main : ∀ text f, extract_abn text = some f →
      validate_abn f.value = true ∧ f.confidence = 0.9 := by
    intro text f h
    have hgo := extract_abn_go_validated abnREs text f h
    rw [mkRat_nineTenths] at hgo
    exact hgo
  refine ⟨main, ?_, by decide, by decide⟩
  intro text dt inv f h habn
  simp only [parse_from_text] at h
  by_cases he : (rustTrim text).isEmpty
  · simp [he] at h
  · simp only [he, Bool.false_eq_true, if_false] at h
    rw [Except.ok.injEq] at h
    subst h
    exact main _ f habn

/-- Witness for C6 at the bare valid identifier 51824753556. -/
theorem extract_abn_validated_witness :
    validate_abn ((⟨("51824753556").toList, mkRat 9 10, "abn_regex"⟩ :
        ExtractedField (List Char)).value) = true
    ∧ (⟨("51824753556").toList, mkRat 9 10, "abn_regex"⟩ :
        ExtractedField (List Char)).confidence = 0.9 :=
  (extract_abn_validated).1 (("51824753556").toList) _ (by decide)

lemma extract_vendor_name_go_find (ls : List (List Char)) :
    extract_vendor_name_go ls = (ls.find? (fun l => !vendorSkip l && vendorAccept l)).map
      (fun l => ⟨l, vendorConfidence l, "vendor_heuristic"⟩) := by
  induction ls with
  | nil => rfl
  | cons l ls ih =>
    simp only [extract_vendor_name_go, List.find?_cons]
    by_cases hs : vendorSkip l = true
    · simp [hs, ih]
    · rw [Bool.not_eq_true] at hs
      by_cases ha : vendorAccept l = true
      · simp [hs, ha]
      · rw [Bool.not_eq_true] at ha
        simp [hs, ha, ih]

/-- C7, counterexample: the claim accepts a qualifying line that is 3 to
100 characters long, but the code demands strictly more than 3 (and
strictly fewer than 100) bytes.  The single line abc is scanned (it is in
the window), is not skipped, is exactly 3 characters with an alphabetic
character — per the claim it should be returned as the vendor name — yet
the extractor returns nothing. -/
theorem extract_vendor_name_len3_cex :
    extract_vendor_name (("abc").toList) = none
    ∧ vendorWindow (("abc").toList) = [("abc").toList]
    ∧ vendorSkip (("abc").toList) = false
    ∧ (("abc").toList).length = 3
    ∧ (("abc").toList).any Char.isAlpha = true := by decide

/-- C7, amended: the vendor heuristic scans at most the first 10 trimmed
lines that are nonempty and longer than 2 bytes (short lines are filtered
out before the 10-line window is taken), and returns the first of them
that is not skipped, is strictly longer than 3 and strictly shorter than
100 bytes and has an alphabetic character, with confidence 0.90 when the
lowercased line contains a business-suffix token and 0.70 otherwise; no
qualifying line yields none.  The third conjunct shows a vendor line in
eleventh position still found because ten 2-byte lines do not enter the
window; the fourth shows ten 3-byte lines exhausting the window. -/
theorem extract_vendor_name_amended (text : List Char) :
    extract_vendor_name text =
      ((vendorWindow text).find? (fun l => !vendorSkip l && vendorAccept l)).map
        (fun l => ⟨l, vendorConfidence l, "vendor_heuristic"⟩)
    ∧ (∀ f, extract_vendor_name text = some f →
        f.value ∈ vendorWindow text ∧ vendorSkip f.value = false ∧
        3 < byteLen f.value ∧ byteLen f.value < 100 ∧ f.value.any Char.isAlpha = true ∧
        f.confidence = (if businessSuffixes.any (fun suf => containsSub (toLowerStr f.value) suf)
          then (0.9 : ℚ) else 0.7))
    ∧ (extract_vendor_name (("ab\nab\nab\nab\nab\nab\nab\nab\nab\nab\nAcme Pty Ltd").toList)).map
        (fun f => (f.value, f.confidence)) = some ((("Acme Pty Ltd").toList, mkRat 9 10))
    ∧ extract_vendor_name
        (("abc\nabc\nabc\nabc\nabc\nabc\nabc\nabc\nabc\nabc\nAcme Pty Ltd").toList) = none := by
  refine ⟨extract_vendor_name_go_find _, ?_, by decide, by decide⟩
  intro f h
  rw [show extract_vendor_name text = extract_vendor_name_go (vendorWindow text) from rfl,
    extract_vendor_name_go_find] at h
  rcases Option.map_eq_some'.mp h with ⟨l, hfind, hf⟩
  have hl := List.find?_some hfind
  have hmem := List.mem_of_find?_eq_some hfind
  rw [Bool.and_eq_true, Bool.not_eq_true'] at hl
  rcases hl with ⟨hskip, hacc⟩
  rw [vendorAccept, Bool.and_eq_true, Bool.and_eq_true, decide_eq_true_eq,
    decide_eq_true_eq] at hacc
  subst hf
  refine ⟨hmem, hskip, hacc.1.1, hacc.1.2, hacc.2, ?_⟩
  show vendorConfidence l = _
  rw [vendorConfidence]
  split
  · rw [mkRat_nineTenths]
  · rw [mkRat_sevenTenths]

/-- Witness for the amended C7 at the single accepted line Acme Pty Ltd. -/
theorem extract_vendor_name_amended_witness :
    (⟨("Acme Pty Ltd").toList, mkRat 9 10, "vendor_heuristic"⟩ : ExtractedField (List Char)).value
        ∈ vendorWindow (("Acme Pty Ltd").toList)
    ∧ 3 < byteLen (⟨("Acme Pty Ltd").toList, mkRat 9 10, "vendor_heuristic"⟩ :
        ExtractedField (List Char)).value := by
  have happ := (extract_vendor_name_amended (("Acme Pty Ltd").toList)).2.1
    ⟨("Acme Pty Ltd").toList, mkRat 9 10, "vendor_heuristic"⟩ (by decide)
  exact ⟨happ.1, happ.2.2.1⟩

lemma lineToItem_spec (rawLine : List Char) (item : LineItem)
    (h : lineToItem? rawLine = some item) :
    lineAmounts (rustTrim rawLine) ≠ []
    ∧ item.total = ((lineAmounts (rustTrim rawLine)).getLast?).getD 0
    ∧ item.quantity = lineQty (rustTrim rawLine)
    ∧ item.unit_price = some (
        if (lineAmounts (rustTrim rawLine)).length ≥ 2 then
          (lineAmounts (rustTrim rawLine)).getD ((lineAmounts (rustTrim rawLine)).length - 2) 0
        else match lineQty (rustTrim rawLine) with
          | some q => if q > 0 then qdiv (((lineAmounts (rustTrim rawLine)).getLast?).getD 0) q
                      else 0
          | none => ((lineAmounts (rustTrim rawLine)).getLast?).getD 0)
    ∧ item.description ≠ [] ∧ byteLen item.description < 200
    ∧ item.confidence = (if (lineQty (rustTrim rawLine)).isSome then mkRat 7 10
        else mkRat 5 10) := by
  simp only [lineToItem?] at h
  split at h
  · simp at h
  · split at h
    · simp at h
    · rename_i hne
      split at h
      · rename_i hdesc
        rw [Bool.and_eq_true, Bool.not_eq_true', decide_eq_true_eq] at hdesc
        rw [Option.some.injEq] at h
        subst h
        refine ⟨?_, rfl, rfl, rfl, ?_, hdesc.2, rfl⟩
        · intro hnil
          simp [hnil] at hne
        · intro hnil
          dsimp only at hnil
          rw [hnil] at hdesc
          simp at hdesc
      · simp at h

/-- C8, counterexample: on the line Gratis 0 x 5.00 exactly one amount is
collected and a quantity of exactly zero is parsed, so by the claim the
unit price should be the total itself (5.00); the code instead emits unit
price 0. -/
theorem extract_line_items_zero_qty_cex :
    extract_line_items (("Gratis 0 x 5.00").toList)
      = [⟨("Gratis 0 x").toList, some 0, some 0, 5, mkRat 7 10⟩]
    ∧ lineAmounts (rustTrim (("Gratis 0 x 5.00").toList)) = [5]
    ∧ lineQty (rustTrim (("Gratis 0 x 5.00").toList)) = some 0 :=
  ⟨by decide, by decide, by decide⟩

/-- C8, amended: per qualifying line at most one item is emitted whose
total is the last positively parsed amount (amounts of value 0.00 are
dropped before this choice); the unit price is the second-to-last such
amount when there are two or more, else — with a parsed quantity — total
over the quantity when it is positive and 0 when the quantity is zero,
else the total itself; the description is nonempty and under 200 bytes;
confidence 0.70 with a quantity marker, else 0.50; at most 50 items
total. -/
theorem extract_line_items_amended (text : List Char) :
    (extract_line_items text).length ≤ 50
    ∧ extract_line_items text = ((rustLines text).filterMap lineToItem?).take 50
    ∧ (∀ line item, lineToItem? line = some item →
        lineAmounts (rustTrim line) ≠ []
        ∧ item.total = ((lineAmounts (rustTrim line)).getLast?).getD 0
        ∧ (2 ≤ (lineAmounts (rustTrim line)).length →
            item.unit_price = some ((lineAmounts (rustTrim line)).getD
              ((lineAmounts (rustTrim line)).length - 2) 0))
        ∧ ((lineAmounts (rustTrim line)).length < 2 →
            item.unit_price = some (match lineQty (rustTrim line) with
              | some q => if q > 0 then item.total / q else 0
              | none => item.total))
        ∧ item.quantity = lineQty (rustTrim line)
        ∧ item.description ≠ [] ∧ byteLen item.description < 200
        ∧ item.confidence = (if (lineQty (rustTrim line)).isSome then (0.7 : ℚ) else 0.5))
    ∧ lineToItem? (("Widget 2 x 5.00 10.00").toList)
        = some ⟨("Widget 2 x").toList, some 2, some 5, 10, mkRat 7 10⟩ := by
  refine ⟨?_, rfl, ?_, by decide⟩
  · simp only [extract_line_items]
    exact List.length_take_le 50 _
  · intro line item h
    obtain ⟨hne, htot, hqty, hup, hd1, hd2, hconf⟩ := lineToItem_spec line item h
    refine ⟨hne, htot, ?_, ?_, hqty, hd1, hd2, ?_⟩
    · intro hlen
      rw [hup, if_pos hlen]
    · intro hlen
      rw [hup, if_neg (by omega)]
      cases hq : lineQty (rustTrim line) with
      | none => rw [htot]
      | some q =>
        dsimp only
        by_cases hq0 : q > 0
        · rw [if_pos hq0, if_pos hq0, qdiv_eq, htot]
        · rw [if_neg hq0, if_neg hq0]
    · rw [hconf]
      split
      · rw [mkRat_sevenTenths]
      · rw [mkRat_half]

/-- Witness for the amended C8 at the line Widget 2 x 5.00 10.00. -/
theorem extract_line_items_amended_witness :
    lineAmounts (rustTrim (("Widget 2 x 5.00 10.00").toList)) ≠ []
    ∧ (⟨("Widget 2 x").toList, some 2, some 5, 10, mkRat 7 10⟩ : LineItem).total
      = ((lineAmounts (rustTrim (("Widget 2 x 5.00 10.00").toList))).getLast?).getD 0 := by
  have h := (extract_line_items_amended ([] : List Char)).2.2.1 (("Widget 2 x 5.00 10.00").toList)
    ⟨("Widget 2 x").toList, some 2, some 5, 10, mkRat 7 10⟩ (by decide)
  exact ⟨h.1, h.2.1⟩

/-- C10: every emitted line item has a populated unit price, even with a
single amount and no quantity marker (it then equals the total) and even
with a parsed quantity of exactly zero (it is then 0.0), although the
data model declares the field optional; the two concrete lines exhibit
both situations. -/
theorem line_item_unit_price_present (text : List Char) :
    (∀ item ∈ extract_line_items text, item.unit_price.isSome = true)
    ∧ (∀ line item, lineToItem? line = some item →
        ((lineAmounts (rustTrim line)).length = 1 ∧ lineQty (rustTrim line) = none →
          item.unit_price = some item.total)
        ∧ (lineQty (rustTrim line) = some 0 →
            ((lineAmounts (rustTrim line)).length = 1 → item.unit_price = some 0)))
    ∧ lineToItem? (("Widget thing 10.00").toList)
        = some ⟨("Widget thing").toList, none, some 10, 10, mkRat 5 10⟩
    ∧ lineToItem? (("Promo 0 x 4.00").toList)
        = some ⟨("Promo 0 x").toList, some 0, some 0, 4, mkRat 7 10⟩ := by
  refine ⟨?_, ?_, by decide, by decide⟩
  · intro item hitem
    simp only [extract_line_items] at hitem
    have hmem := List.mem_of_mem_take hitem
    rcases List.mem_filterMap.mp hmem with ⟨line, hline, hsome⟩
    obtain ⟨hne, htot, hqty, hup, hrest⟩ := lineToItem_spec line item hsome
    rw [hup]
    rfl
  · intro line item h
    obtain ⟨hne, htot, hqty, hup, hrest⟩ := lineToItem_spec line item h
    constructor
    · rintro ⟨hlen, hq⟩
      rw [hup, if_neg (by omega), hq, htot]
    · intro hq hlen
      rw [hup, if_neg (by omega), hq]
      simp

/-- Witness for C10 at the line Widget thing 10.00 (one amount, no
quantity marker, unit price equal to the total). -/
theorem line_item_unit_price_present_witness :
    (⟨("Widget thing").toList, none, some 10, 10, mkRat 5 10⟩ : LineItem).unit_price
      = some (⟨("Widget thing").toList, none, some 10, 10, mkRat 5 10⟩ : LineItem).total := by
  have h := (line_item_unit_price_present ([] : List Char)).2.1 (("Widget thing 10.00").toList)
    ⟨("Widget thing").toList, none, some 10, 10, mkRat 5 10⟩ (by decide)
  exact h.1 ⟨by decide, by decide⟩
